import Mathlib

/-!
Shallow embedding of the Siren_Siret repository (src/insee_sirene.py and
src/App2.py) for verification of its specification.

Modelling conventions:
* A Python dict field that may be absent or `None` is an `Option String`
  (or `Option Bool`, …); `od o` is Python's `(o or "")` / `.get(k, "")`.
* Python `str.strip()` is `String.pyStrip`; `str.isdigit()` and the regex
  classes `\d` / `\w` are modelled over their ASCII meaning
  (`Char.isDigit`, alphanumeric-or-underscore).
* HTTP traffic is modelled by a response oracle `Nat → Response`: the
  `i`-th request made by the page loop receives `resp i`.  The cooperative
  stop flag is a predicate `Nat → Bool` sampled at the top of each loop
  iteration, as the Python code samples `should_stop()` there.
* `time.sleep(1.0 * retry_429)` back-off sleeps are recorded in a list of
  the multipliers (the k-th recorded value is the duration in seconds of
  the k-th back-off sleep); the fixed `base_sleep_s` pacing sleep happens
  exactly once per issued request and is not recorded separately.
* Python's `list.sort` / pandas `sort_values` are modelled by
  `List.insertionSort`, a stable sort; the rows being sorted always have
  pairwise distinct sort keys here, so any comparison sort agrees.
-/

/-- Python `(o or "")` for an optional string field. -/
def od (o : Option String) : String := o.getD ""

/-- Python `(a or b or "")` for two optional string fields. -/
def pyOr2 (a b : Option String) : String :=
  match a with
  | some s => if s = "" then od b else s
  | none => od b

/-- Python `str.strip()` over the ASCII-whitespace scope of this model,
written with structural recursion so that it evaluates by kernel
reduction. -/
def String.pyStrip (s : String) : String :=
  ⟨((s.data.dropWhile Char.isWhitespace).reverse.dropWhile Char.isWhitespace).reverse⟩

/-- One entry of `periodesEtablissement` (a period dict of the API). -/
structure Periode where
  dateFin : Option String := none
  dateDebut : Option String := none
  enseigne1Etablissement : Option String := none
  enseigne2Etablissement : Option String := none
  enseigne3Etablissement : Option String := none
  denominationUsuelleEtablissement : Option String := none
  etatAdministratifEtablissement : Option String := none
deriving DecidableEq, Repr

/-- The nested `uniteLegale` dict of an establishment record. -/
structure UniteLegale where
  denominationUniteLegale : Option String := none
  nomUniteLegale : Option String := none
  prenom1UniteLegale : Option String := none
deriving DecidableEq, Repr

/-- The nested `adresseEtablissement` dict of an establishment record. -/
structure Adresse where
  complementAdresseEtablissement : Option String := none
  numeroVoieEtablissement : Option String := none
  indiceRepetitionEtablissement : Option String := none
  typeVoieEtablissement : Option String := none
  libelleVoieEtablissement : Option String := none
  distributionSpecialeEtablissement : Option String := none
  codePostalEtablissement : Option String := none
  libelleCommuneEtablissement : Option String := none
  libelleCedexEtablissement : Option String := none
deriving DecidableEq, Repr

/-- A raw establishment record, with both the nested and the flattened
("aplati") field layouts the code falls back between. -/
structure Etab where
  siret : Option String := none
  siren : Option String := none
  etablissementSiege : Option Bool := none
  uniteLegale : Option UniteLegale := none
  periodesEtablissement : Option (List Periode) := none
  adresseEtablissement : Option Adresse := none
  denominationUniteLegale : Option String := none
  nomUniteLegale : Option String := none
  prenom1UniteLegale : Option String := none
  enseigne1Etablissement : Option String := none
  enseigne2Etablissement : Option String := none
  enseigne3Etablissement : Option String := none
  denominationUsuelleEtablissement : Option String := none
  etatAdministratifEtablissement : Option String := none
  complementAdresseEtablissement : Option String := none
  numeroVoieEtablissement : Option String := none
  indiceRepetitionEtablissement : Option String := none
  typeVoieEtablissement : Option String := none
  libelleVoieEtablissement : Option String := none
  distributionSpecialeEtablissement : Option String := none
  codePostalEtablissement : Option String := none
  libelleCommuneEtablissement : Option String := none
  libelleCedexEtablissement : Option String := none
deriving DecidableEq, Repr

/-- One normalized output row (`rows.append({...})` in the page loop). -/
structure Row where
  SIRET : String
  SIREN : String
  nomUniteLegale : String
  nomEtablissement : String
  siege : Bool
  etatAdministratif : String
  adresse : String
  codePostal : String
  ville : String
deriving DecidableEq, Repr

/-- `_normalize_siren`'s digit filter: keep only (ASCII) digits of `raw`. -/
def digitsOf (raw : String) : String := ⟨raw.data.filter Char.isDigit⟩

/-- `_normalize_siren`: strip non-digits; exactly 9 digits or a `ValueError`. -/
def normalize_siren (raw : String) : Except String String :=
  let siren := digitsOf raw
  if siren.length = 9 then Except.ok siren
  else Except.error "Le SIREN doit contenir exactement 9 chiffres."

/-- Python `max(periodes, key=...)`: left fold keeping the first maximum. -/
def pyMaxBy (key : Periode → String) : Periode → List Periode → Periode
  | acc, [] => acc
  | acc, p :: ps => pyMaxBy key (if key acc < key p then p else acc) ps

/-- `_latest_period`: the first period whose `dateFin` is falsy, else the
period with maximal `dateDebut` (missing start read as `"0000-00-00"`);
`{}` (a record with no fields) on an empty list. -/
def latest_period (periodes : List Periode) : Periode :=
  match periodes with
  | [] => {}
  | p :: ps =>
    match (p :: ps).filter (fun q => od q.dateFin = "") with
    | c :: _ => c
    | [] => pyMaxBy (fun q => q.dateDebut.getD "0000-00-00") p ps

/-- `_get_unite_legale_name`: nested denomination, then nested
prenom+nom, then the flattened fields. -/
def get_unite_legale_name (e : Etab) : String :=
  let ul := e.uniteLegale
  let denom := (od (ul.bind (·.denominationUniteLegale))).pyStrip
  if denom ≠ "" then denom
  else
    let nom := (od (ul.bind (·.nomUniteLegale))).pyStrip
    let prenom := (od (ul.bind (·.prenom1UniteLegale))).pyStrip
    let full := (prenom ++ " " ++ nom).pyStrip
    if full ≠ "" then full
    else
      let denom2 := (od e.denominationUniteLegale).pyStrip
      if denom2 ≠ "" then denom2
      else
        let nom2 := (od e.nomUniteLegale).pyStrip
        let prenom2 := (od e.prenom1UniteLegale).pyStrip
        (prenom2 ++ " " ++ nom2).pyStrip

/-- `_get_etablissement_label`: enseignes of the current period, then its
usual denomination, then the flattened enseignes, then the flattened
usual denomination. -/
def get_etablissement_label (e : Etab) : String :=
  let periodes := (e.periodesEtablissement).getD []
  let p0 := latest_period periodes
  let ens := [(od p0.enseigne1Etablissement).pyStrip,
              (od p0.enseigne2Etablissement).pyStrip,
              (od p0.enseigne3Etablissement).pyStrip].filter (· ≠ "")
  if ens ≠ [] then String.intercalate " / " ens
  else
    let du := (od p0.denominationUsuelleEtablissement).pyStrip
    if du ≠ "" then du
    else
      let ens2 := [(od e.enseigne1Etablissement).pyStrip,
                   (od e.enseigne2Etablissement).pyStrip,
                   (od e.enseigne3Etablissement).pyStrip].filter (· ≠ "")
      if ens2 ≠ [] then String.intercalate " / " ens2
      else (od e.denominationUsuelleEtablissement).pyStrip

/-- `_get_etat_admin`: the current period's administrative state when it is
non-empty, else the flattened field. -/
def get_etat_admin (e : Etab) : String :=
  let periodes := (e.periodesEtablissement).getD []
  let fromPeriode :=
    if periodes.isEmpty then ""
    else (od (latest_period periodes).etatAdministratifEtablissement).pyStrip
  if fromPeriode ≠ "" then fromPeriode
  else (od e.etatAdministratifEtablissement).pyStrip

/-- `_format_adresse`: returns (Adresse, Code postal, Ville). -/
def format_adresse (e : Etab) : String × String × String :=
  let adr := e.adresseEtablissement
  let voie := (String.intercalate " "
    ([(pyOr2 (adr.bind (·.numeroVoieEtablissement)) e.numeroVoieEtablissement).pyStrip,
      (pyOr2 (adr.bind (·.indiceRepetitionEtablissement)) e.indiceRepetitionEtablissement).pyStrip,
      (pyOr2 (adr.bind (·.typeVoieEtablissement)) e.typeVoieEtablissement).pyStrip,
      (pyOr2 (adr.bind (·.libelleVoieEtablissement)) e.libelleVoieEtablissement).pyStrip
     ].filter (· ≠ ""))).pyStrip
  let complement := (pyOr2 (adr.bind (·.complementAdresseEtablissement)) e.complementAdresseEtablissement).pyStrip
  let dist := (pyOr2 (adr.bind (·.distributionSpecialeEtablissement)) e.distributionSpecialeEtablissement).pyStrip
  let cp := (pyOr2 (adr.bind (·.codePostalEtablissement)) e.codePostalEtablissement).pyStrip
  let commune := (pyOr2 (adr.bind (·.libelleCommuneEtablissement)) e.libelleCommuneEtablissement).pyStrip
  let cedex := (pyOr2 (adr.bind (·.libelleCedexEtablissement)) e.libelleCedexEtablissement).pyStrip
  let adresse := String.intercalate ", " ([complement, voie, dist].filter (· ≠ ""))
  let ville := if cedex ≠ "" then cedex else commune
  (adresse, cp, ville)

/-- `status_map = {"A": "Actif", "F": "Fermé"}` with `.get(code, code)`. -/
def statusMapGet (etat : String) : String :=
  if etat = "A" then "Actif" else if etat = "F" then "Fermé" else etat

/-- The body of the per-establishment loop: `None` when the record is
skipped (`continue`), otherwise the appended row. -/
def processEtab (onlyActive : Bool) (e : Etab) : Option Row :=
  let siret_val := od e.siret
  if siret_val = "" then none
  else
    let etat_code := get_etat_admin e
    if onlyActive && !(etat_code = "") && !(etat_code = "A") then none
    else
      let adr := format_adresse e
      some {
        SIRET := siret_val
        SIREN := od e.siren
        nomUniteLegale := get_unite_legale_name e
        nomEtablissement := get_etablissement_label e
        siege := e.etablissementSiege.getD false
        etatAdministratif := statusMapGet etat_code
        adresse := adr.1
        codePostal := adr.2.1
        ville := adr.2.2 }

/-- One HTTP exchange as seen by the page loop: a parsed 200 answer, a 429,
another error status (≥ 400, ≠ 429), or a transport failure. -/
inductive Response where
  | ok (etabs : List Etab) (nextCursor : Option String)
  | status429
  | httpStatus (code : Nat)
  | netFailure (msg : String)
deriving DecidableEq, Repr

/-- The distinct failure modes `get_sirets_from_siren` can raise. -/
inductive FetchErr where
  | validation (msg : String)
  | stopRequested
  | network (msg : String)
  | tooMany429
  | unauthorized
  | badRequest
  | httpError (code : Nat)
  | maxPagesReached
deriving DecidableEq, Repr

/-- Outcome of a fetch: the rows, raw records, recorded back-off sleeps and
request count on success; the error, request count and recorded sleeps on
failure. -/
inductive FetchResult where
  | done (rows : List Row) (etabs : List Etab) (sleeps : List Nat) (requests : Nat)
  | err (e : FetchErr) (requests : Nat) (sleeps : List Nat)
deriving DecidableEq, Repr

/-- The `for page in range(max_pages)` loop of `get_sirets_from_siren`.
`budget` is the number of loop iterations still allowed, `i` the index of
the next iteration (= requests already issued), `cursor`/`retry` the
`curseur`/`retry_429` variables, and the accumulators mirror
`rows`/`all_etabs` plus the back-off sleep log. -/
def fetchLoop (resp : Nat → Response) (stop : Nat → Bool) (onlyActive : Bool)
    (maxRetries : Nat) :
    Nat → Nat → String → Nat → List Row → List Etab → List Nat → FetchResult
  | 0, i, _, _, _, _, sleeps => .err .maxPagesReached i sleeps
  | budget + 1, i, cursor, retry, rows, etabs, sleeps =>
    if stop i then .err .stopRequested i sleeps
    else
      match resp i with
      | .netFailure msg => .err (.network msg) (i + 1) sleeps
      | .status429 =>
        if retry + 1 > maxRetries then .err .tooMany429 (i + 1) sleeps
        else
          fetchLoop resp stop onlyActive maxRetries budget (i + 1) cursor
            (retry + 1) rows etabs (sleeps ++ [retry + 1])
      | .httpStatus code =>
        if code = 401 then .err .unauthorized (i + 1) sleeps
        else if code = 400 then .err .badRequest (i + 1) sleeps
        else .err (.httpError code) (i + 1) sleeps
      | .ok pageEtabs nextCursor =>
        let etabs' := etabs ++ pageEtabs
        let rows' := rows ++ pageEtabs.filterMap (processEtab onlyActive)
        match nextCursor with
        | none => .done rows' etabs' sleeps (i + 1)
        | some nc =>
          if nc = "" then .done rows' etabs' sleeps (i + 1)
          else if nc = cursor then .done rows' etabs' sleeps (i + 1)
          else fetchLoop resp stop onlyActive maxRetries budget (i + 1) nc 0
            rows' etabs' sleeps

/-- Generic first-occurrence deduplication (a Python `seen` set plus an
`out` list; also pandas `drop_duplicates(subset=[key])`). -/
def dedupByFirst {α β : Type} [DecidableEq β] (key : α → β) :
    List β → List α → List α
  | _, [] => []
  | seen, x :: xs =>
    if key x ∈ seen then dedupByFirst key seen xs
    else x :: dedupByFirst key (key x :: seen) xs

/-- The last row carrying a given SIRET (a dict's final value for a key). -/
def lastWithSiret (k : String) (rows : List Row) : Option Row :=
  rows.reverse.find? (fun r => r.SIRET = k)

/-- `{row["SIRET"]: row for row in rows}` then `list(dict.values())`:
keys in first-occurrence order, each mapped to its last row. -/
def dictValues (rows : List Row) : List Row :=
  (dedupByFirst id [] (rows.map (·.SIRET))).filterMap
    (fun k => lastWithSiret k rows)

/-- The per-fetch sort key order: `rows.sort(key=lambda x: x.get("SIRET",""))`. -/
def rowLeSiret (a b : Row) : Prop := a.SIRET ≤ b.SIRET

instance : DecidableRel rowLeSiret := fun a b =>
  decidable_of_iff (a.SIRET.toList ≤ b.SIRET.toList)
    (by unfold rowLeSiret; exact String.le_iff_toList_le.symm)

/-- Post-processing at the end of `get_sirets_from_siren`: dict
deduplication by SIRET then sort by SIRET. -/
def postProcess (rows : List Row) : List Row :=
  List.insertionSort rowLeSiret (dictValues rows)

/-- `get_sirets_from_siren`, as a function of the response oracle and the
stop flag; only the row list of the returned pair is post-processed. -/
def get_sirets_from_siren (rawSiren : String) (onlyActive : Bool)
    (maxPages maxRetries : Nat) (stop : Nat → Bool) (resp : Nat → Response) :
    FetchResult :=
  match normalize_siren rawSiren with
  | .error m => .err (.validation m) 0 []
  | .ok _ =>
    match fetchLoop resp stop onlyActive maxRetries maxPages 0 "*" 0 [] [] [] with
    | .done rows etabs sleeps reqs => .done (postProcess rows) etabs sleeps reqs
    | r => r

/-- A word character of the regex `\b` boundary (`[A-Za-z0-9_]`, over the
ASCII scope of this model). -/
def isWordChar (c : Char) : Bool := c.isAlphanum || c = '_'

/-- `\b` holds before a digit at the very start of the scan window: true at
the start of the text, or after a non-word character. -/
def prevOk (prev : Option Char) : Bool :=
  match prev with
  | none => true
  | some c => !isWordChar c

/-- `\b` holds after the ninth digit: end of text or a non-word character. -/
def boundaryAfter (l : List Char) : Bool :=
  match l.head? with
  | none => true
  | some c => !isWordChar c

/-- `re.findall(r"\b\d{9}\b", ...)`: left-to-right scan emitting each
non-overlapping 9-digit match whose two `\b` boundaries hold; `prev` is
the character just before the scan window.  `fuel` is any bound on the
number of characters still to be examined (the callers pass the text
length); it only makes the recursion structural, so that the scan
evaluates by kernel reduction. -/
def findRuns : Nat → Option Char → List Char → List String
  | _, _, [] => []
  | 0, _, _ :: _ => []
  | fuel + 1, prev, c :: rest =>
    let m := c :: rest.take 8
    if m.length = 9 && m.all Char.isDigit && prevOk prev &&
        boundaryAfter (rest.drop 8) then
      String.mk m :: findRuns fuel m.getLast? (rest.drop 8)
    else
      findRuns fuel (some c) rest

/-- `text.replace(" ", "").replace("\t", "")` as a character list. -/
def compactChars (text : String) : List Char :=
  text.data.filter (fun c => !(c = ' ' || c = '\t'))

/-- `extract_sirens_from_text`: compact, scan for `\b\d{9}\b`, keep the
first occurrence of each match. -/
def extract_sirens_from_text (text : String) : List String :=
  if text = "" then []
  else
    dedupByFirst id []
      (findRuns (compactChars text).length none (compactChars text))

/-- The batch sort key order of `df.sort_values(["SIREN", "SIRET"])`:
lexicographic on (SIREN, SIRET). -/
def rowLeLex (a b : Row) : Prop :=
  a.SIREN < b.SIREN ∨ (a.SIREN = b.SIREN ∧ a.SIRET ≤ b.SIRET)

instance : DecidableRel rowLeLex := fun a b =>
  decidable_of_iff
    (a.SIREN.toList < b.SIREN.toList ∨
      (a.SIREN = b.SIREN ∧ a.SIRET.toList ≤ b.SIRET.toList))
    (by unfold rowLeLex; simp only [String.lt_iff_toList_lt, String.le_iff_toList_le])

/-- The batch post-processing of App2's run block on the aggregated row
list: `drop_duplicates(subset=["SIRET"])` (first occurrence kept) then
`sort_values(["SIREN", "SIRET"])`.  On an empty aggregate the DataFrame
has no columns and both steps are skipped, which coincides with this
function's value `[]`. -/
def batchPostProcess (allRows : List Row) : List Row :=
  List.insertionSort rowLeLex (dedupByFirst (·.SIRET) [] allRows)

/-- The regex boundary condition to the left of a match that starts right
after the prefix `l` (with `prev` the character before the whole window). -/
def beforeOk (prev : Option Char) (l : List Char) : Bool :=
  match l.getLast? with
  | none => prevOk prev
  | some c => !isWordChar c

/-- The first element of `xs` whose key is `k`. -/
def firstWithKey {α β : Type} [DecidableEq β] (key : α → β) (k : β)
    (xs : List α) : Option α :=
  xs.find? (fun a => decide (key a = k))

/-- Recognizer for the validation failure of `_normalize_siren`. -/
def isValidationErr : FetchResult → Bool
  | .err (.validation _) _ _ => true
  | _ => false

instance : IsTotal Row rowLeSiret :=
  ⟨by intro a b; exact le_total a.SIRET b.SIRET⟩

instance : IsTrans Row rowLeSiret :=
  ⟨by
    intro a b c hab hbc
    exact le_trans hab hbc⟩

instance : IsTotal Row rowLeLex :=
  ⟨by
    intro a b
    unfold rowLeLex
    rcases lt_trichotomy a.SIREN b.SIREN with h | h | h
    · exact Or.inl (Or.inl h)
    · rcases le_total a.SIRET b.SIRET with h2 | h2
      · exact Or.inl (Or.inr ⟨h, h2⟩)
      · exact Or.inr (Or.inr ⟨h.symm, h2⟩)
    · exact Or.inr (Or.inl h)⟩

instance : IsTrans Row rowLeLex :=
  ⟨by
    intro a b c hab hbc
    unfold rowLeLex at hab hbc ⊢
    rcases hab with h1 | ⟨e1, s1⟩
    · rcases hbc with h2 | ⟨e2, s2⟩
      · exact Or.inl (h1.trans h2)
      · exact Or.inl (e2 ▸ h1)
    · rcases hbc with h2 | ⟨e2, s2⟩
      · exact Or.inl (by rw [e1]; exact h2)
      · exact Or.inr ⟨e1.trans e2, s1.trans s2⟩⟩

theorem mem_of_mem_dedupByFirst {α β : Type} [DecidableEq β] (key : α → β) :
    ∀ (seen : List β) (xs : List α) (a : α),
      a ∈ dedupByFirst key seen xs → a ∈ xs ∧ key a ∉ seen
  | _, [], a => by simp [dedupByFirst]
  | seen, x :: rest, a => by
    simp only [dedupByFirst]
    split_ifs with hx
    · intro ha
      have h := mem_of_mem_dedupByFirst key seen rest a ha
      exact ⟨List.mem_cons_of_mem _ h.1, h.2⟩
    · intro ha
      rcases List.mem_cons.mp ha with rfl | ha'
      · exact ⟨List.mem_cons_self _ _, hx⟩
      · have h := mem_of_mem_dedupByFirst key (key x :: seen) rest a ha'
        refine ⟨List.mem_cons_of_mem _ h.1, fun hs => ?_⟩
        exact h.2 (List.mem_cons_of_mem _ hs)

theorem dedupByFirst_sublist {α β : Type} [DecidableEq β] (key : α → β) :
    ∀ (seen : List β) (xs : List α), List.Sublist (dedupByFirst key seen xs) xs
  | _, [] => by simp [dedupByFirst]
  | seen, x :: rest => by
    simp only [dedupByFirst]
    split_ifs with hx
    · exact (dedupByFirst_sublist key seen rest).cons _
    · exact (dedupByFirst_sublist key (key x :: seen) rest).cons₂ _

theorem dedupByFirst_pairwise_keys {α β : Type} [DecidableEq β] (key : α → β) :
    ∀ (seen : List β) (xs : List α),
      (dedupByFirst key seen xs).Pairwise (fun a b => key a ≠ key b)
  | _, [] => by simp [dedupByFirst]
  | seen, x :: rest => by
    simp only [dedupByFirst]
    split_ifs with hx
    · exact dedupByFirst_pairwise_keys key seen rest
    · refine List.Pairwise.cons ?_ (dedupByFirst_pairwise_keys key (key x :: seen) rest)
      intro b hb heq
      have h := mem_of_mem_dedupByFirst key (key x :: seen) rest b hb
      exact h.2 (by rw [← heq]; exact List.mem_cons_self _ _)

theorem dedupByFirst_keeps_first {α β : Type} [DecidableEq β] (key : α → β) :
    ∀ (seen : List β) (xs : List α) (a : α),
      a ∈ dedupByFirst key seen xs → firstWithKey key (key a) xs = some a
  | _, [], a => by simp [dedupByFirst]
  | seen, x :: rest, a => by
    simp only [dedupByFirst]
    split_ifs with hx
    · intro ha
      have h := mem_of_mem_dedupByFirst key seen rest a ha
      have hne : key x ≠ key a := fun he => h.2 (he ▸ hx)
      have hstep : firstWithKey key (key a) (x :: rest) = firstWithKey key (key a) rest := by
        unfold firstWithKey
        rw [List.find?_cons_of_neg]
        simpa using hne
      rw [hstep]
      exact dedupByFirst_keeps_first key seen rest a ha
    · intro ha
      rcases List.mem_cons.mp ha with rfl | ha'
      · unfold firstWithKey
        rw [List.find?_cons_of_pos]
        simp
      · have h := mem_of_mem_dedupByFirst key (key x :: seen) rest a ha'
        have hne : key x ≠ key a := fun he => h.2 (by rw [← he]; exact List.mem_cons_self _ _)
        have hstep : firstWithKey key (key a) (x :: rest) = firstWithKey key (key a) rest := by
          unfold firstWithKey
          rw [List.find?_cons_of_neg]
          simpa using hne
        rw [hstep]
        exact dedupByFirst_keeps_first key (key x :: seen) rest a ha'

theorem dedupByFirst_covers {α β : Type} [DecidableEq β] (key : α → β) :
    ∀ (seen : List β) (xs : List α) (a : α), a ∈ xs → key a ∉ seen →
      ∃ b ∈ dedupByFirst key seen xs, key b = key a
  | _, [], a => by simp
  | seen, x :: rest, a => by
    intro ha hs
    simp only [dedupByFirst]
    split_ifs with hx
    · rcases List.mem_cons.mp ha with rfl | ha'
      · exact absurd hx hs
      · exact dedupByFirst_covers key seen rest a ha' hs
    · rcases List.mem_cons.mp ha with rfl | ha'
      · exact ⟨a, List.mem_cons_self _ _, rfl⟩
      · by_cases hk : key a = key x
        · exact ⟨x, List.mem_cons_self _ _, hk.symm⟩
        · have hs' : key a ∉ key x :: seen := by
            intro hmem
            rcases List.mem_cons.mp hmem with h1 | h1
            · exact hk h1
            · exact hs h1
          rcases dedupByFirst_covers key (key x :: seen) rest a ha' hs' with ⟨b, hb, hkb⟩
          exact ⟨b, List.mem_cons_of_mem _ hb, hkb⟩

/-- C1 (amended): the batch-level deduplication of the aggregated row list
collapses rows sharing a SIRET by keeping the FIRST occurrence in
aggregation order (pandas `drop_duplicates` default), and the result is
sorted ascending by (SIREN, SIRET): output SIRETs are pairwise distinct,
every output row is the first aggregated row bearing its SIRET, every
aggregated SIRET is represented, and the output is `rowLeLex`-sorted. -/
theorem batchPostProcess_first_wins_sorted (l : List Row) :
    ((batchPostProcess l).Pairwise fun a b => a.SIRET ≠ b.SIRET) ∧
    (∀ r ∈ batchPostProcess l, firstWithKey (fun r => r.SIRET) r.SIRET l = some r) ∧
    (∀ r ∈ l, ∃ r' ∈ batchPostProcess l, r'.SIRET = r.SIRET) ∧
    (batchPostProcess l).Sorted rowLeLex := by
  unfold batchPostProcess
  refine ⟨?_, ?_, ?_, ?_⟩
  · have hperm := List.perm_insertionSort rowLeLex (dedupByFirst (·.SIRET) [] l)
    exact (hperm.pairwise_iff fun h => h.symm).mpr (dedupByFirst_pairwise_keys _ [] l)
  · intro r hr
    rw [List.mem_insertionSort] at hr
    exact dedupByFirst_keeps_first _ [] l r hr
  · intro r hr
    rcases dedupByFirst_covers (fun r => r.SIRET) [] l r hr (by simp) with ⟨b, hb, hkb⟩
    exact ⟨b, by rw [List.mem_insertionSort]; exact hb, hkb⟩
  · exact List.sorted_insertionSort rowLeLex _

/-- C1 counterexample: on two aggregated rows sharing a SIRET, the batch
deduplication keeps the first one, not the last as the claim states. -/
theorem batchPostProcess_keeps_first_not_last :
    batchPostProcess
      [⟨"00000000000001", "000000000", "", "", false, "", "", "", "A"⟩,
       ⟨"00000000000001", "000000000", "", "", false, "", "", "", "B"⟩]
      = [⟨"00000000000001", "000000000", "", "", false, "", "", "", "A"⟩] ∧
    (⟨"00000000000001", "000000000", "", "", false, "", "", "", "A"⟩ : Row)
      ≠ ⟨"00000000000001", "000000000", "", "", false, "", "", "", "B"⟩ := by
  exact ⟨by decide, by decide⟩

/-- C1 witness: the amended theorem applied to the concrete two-row
aggregate of the counterexample. -/
theorem batchPostProcess_first_wins_sorted_witness :
    (⟨"00000000000001", "000000000", "", "", false, "", "", "", "A"⟩ : Row)
      ∈ batchPostProcess
        [⟨"00000000000001", "000000000", "", "", false, "", "", "", "A"⟩,
         ⟨"00000000000001", "000000000", "", "", false, "", "", "", "B"⟩] ∧
    firstWithKey (fun r => r.SIRET) "00000000000001"
      [(⟨"00000000000001", "000000000", "", "", false, "", "", "", "A"⟩ : Row),
       ⟨"00000000000001", "000000000", "", "", false, "", "", "", "B"⟩]
      = some ⟨"00000000000001", "000000000", "", "", false, "", "", "", "A"⟩ := by
  refine ⟨by decide, ?_⟩
  exact (batchPostProcess_first_wins_sorted
    [⟨"00000000000001", "000000000", "", "", false, "", "", "", "A"⟩,
     ⟨"00000000000001", "000000000", "", "", false, "", "", "", "B"⟩]).2.1
    ⟨"00000000000001", "000000000", "", "", false, "", "", "", "A"⟩ (by decide)

theorem pyMaxBy_mem (key : Periode → String) :
    ∀ (acc : Periode) (ps : List Periode),
      pyMaxBy key acc ps = acc ∨ pyMaxBy key acc ps ∈ ps
  | _, [] => Or.inl rfl
  | acc, p :: ps => by
    simp only [pyMaxBy]
    rcases pyMaxBy_mem key (if key acc < key p then p else acc) ps with h | h
    · rw [h]
      split_ifs with hc
      · exact Or.inr (List.mem_cons_self _ _)
      · exact Or.inl rfl
    · exact Or.inr (List.mem_cons_of_mem _ h)

theorem pyMaxBy_ge (key : Periode → String) :
    ∀ (acc : Periode) (ps : List Periode),
      key acc ≤ key (pyMaxBy key acc ps) ∧
      ∀ q ∈ ps, key q ≤ key (pyMaxBy key acc ps)
  | _, [] => ⟨le_refl _, by simp⟩
  | acc, p :: ps => by
    simp only [pyMaxBy]
    have ih := pyMaxBy_ge key (if key acc < key p then p else acc) ps
    have hacc : key acc ≤ key (if key acc < key p then p else acc) := by
      split_ifs with hc
      · exact le_of_lt hc
      · exact le_refl _
    have hp : key p ≤ key (if key acc < key p then p else acc) := by
      split_ifs with hc
      · exact le_refl _
      · exact le_of_not_lt hc
    refine ⟨le_trans hacc ih.1, ?_⟩
    intro q hq
    rcases List.mem_cons.mp hq with rfl | hq'
    · exact le_trans hp ih.1
    · exact ih.2 q hq'

/-- C8: for a non-empty period list, `_latest_period` returns a member of
the list; when some period has a falsy `dateFin` the returned period has a
falsy `dateFin` (the "current" period), and otherwise the returned period
has the maximal `dateDebut` key (missing start dates read as
`"0000-00-00"`). -/
theorem latest_period_spec (ps : List Periode) (hne : ps ≠ []) :
    latest_period ps ∈ ps ∧
    ((∃ q ∈ ps, od q.dateFin = "") → od (latest_period ps).dateFin = "") ∧
    ((∀ q ∈ ps, od q.dateFin ≠ "") →
      ∀ q ∈ ps, q.dateDebut.getD "0000-00-00"
        ≤ (latest_period ps).dateDebut.getD "0000-00-00") := by
  match ps, hne with
  | p :: ps', _ =>
    cases hfil : (p :: ps').filter (fun q => od q.dateFin = "") with
    | cons c cs =>
      have hlp : latest_period (p :: ps') = c := by
        simp only [latest_period, hfil]
      rw [hlp]
      have hc : c ∈ (p :: ps').filter (fun q => od q.dateFin = "") := by
        rw [hfil]; exact List.mem_cons_self _ _
      have hmem := List.mem_of_mem_filter hc
      have hprop : od c.dateFin = "" := by
        have := List.of_mem_filter hc
        simpa using this
      refine ⟨hmem, fun _ => hprop, fun hall => absurd hprop (hall c hmem)⟩
    | nil =>
      have hlp : latest_period (p :: ps')
          = pyMaxBy (fun q => q.dateDebut.getD "0000-00-00") p ps' := by
        simp only [latest_period, hfil]
      rw [hlp]
      have hnone : ∀ q ∈ p :: ps', ¬ od q.dateFin = "" := by
        intro q hq hfalse
        have : q ∈ (p :: ps').filter (fun q => od q.dateFin = "") :=
          List.mem_filter.mpr ⟨hq, by simpa using hfalse⟩
        rw [hfil] at this
        exact absurd this (List.not_mem_nil q)
      have hmem : pyMaxBy (fun q => q.dateDebut.getD "0000-00-00") p ps' ∈ p :: ps' := by
        rcases pyMaxBy_mem (fun q => q.dateDebut.getD "0000-00-00") p ps' with h | h
        · rw [h]; exact List.mem_cons_self _ _
        · exact List.mem_cons_of_mem _ h
      have hge := pyMaxBy_ge (fun q => q.dateDebut.getD "0000-00-00") p ps'
      refine ⟨hmem, ?_, ?_⟩
      · intro hex
        rcases hex with ⟨q, hq, hfin⟩
        exact absurd hfin (hnone q hq)
      · intro _ q hq
        rcases List.mem_cons.mp hq with rfl | hq'
        · exact hge.1
        · exact hge.2 q hq'

/-- C8 witness: the theorem applied to a concrete two-period list in which
the second period is current (falsy `dateFin`). -/
theorem latest_period_spec_witness :
    ([({ dateFin := some "2020-01-01", dateDebut := some "2019-01-01" } : Periode),
      { dateDebut := some "2020-01-01" }] ≠ ([] : List Periode)) ∧
    od (latest_period
      [({ dateFin := some "2020-01-01", dateDebut := some "2019-01-01" } : Periode),
       { dateDebut := some "2020-01-01" }]).dateFin = "" := by
  refine ⟨by decide, ?_⟩
  exact (latest_period_spec
    [({ dateFin := some "2020-01-01", dateDebut := some "2019-01-01" } : Periode),
     { dateDebut := some "2020-01-01" }] (by decide)).2.1
    ⟨{ dateDebut := some "2020-01-01" }, by decide, by decide⟩

theorem normalize_siren_ok (raw : String) (h : (digitsOf raw).length = 9) :
    normalize_siren raw = .ok (digitsOf raw) := by
  simp [normalize_siren, h]

theorem normalize_siren_fails (raw : String) (h : (digitsOf raw).length ≠ 9) :
    normalize_siren raw = .error "Le SIREN doit contenir exactement 9 chiffres." := by
  simp [normalize_siren, h]

/-- C10: with the only-active flag set, the per-record filter skips a
record exactly when it carries a SIRET and its resolved administrative
status is non-empty and differs from "A"; a record whose status resolves
to the empty string is still normalized and included, with an empty
displayed status. -/
theorem processEtab_active_filter (e : Etab) :
    (processEtab true e = none ↔
      od e.siret = "" ∨ (get_etat_admin e ≠ "" ∧ get_etat_admin e ≠ "A")) ∧
    (od e.siret ≠ "" → get_etat_admin e = "" →
      ∃ row, processEtab true e = some row ∧ row.etatAdministratif = "") := by
  constructor
  · unfold processEtab
    dsimp only
    split_ifs with h1 h2
    · simp [h1]
    · simp only [Bool.true_and, Bool.and_eq_true, Bool.not_eq_true',
        decide_eq_false_iff_not] at h2
      simp [h1, h2]
    · simp only [Bool.true_and, Bool.and_eq_true, Bool.not_eq_true',
        decide_eq_false_iff_not, not_and, not_not] at h2
      simp only [reduceCtorEq, false_iff]
      intro hcon
      rcases hcon with hc | hc
      · exact h1 hc
      · exact hc.2 (h2 hc.1)
  · intro hs hetat
    refine ⟨{ SIRET := od e.siret, SIREN := od e.siren,
              nomUniteLegale := get_unite_legale_name e,
              nomEtablissement := get_etablissement_label e,
              siege := e.etablissementSiege.getD false,
              etatAdministratif := statusMapGet (get_etat_admin e),
              adresse := (format_adresse e).1,
              codePostal := (format_adresse e).2.1,
              ville := (format_adresse e).2.2 }, ?_, ?_⟩
    · unfold processEtab
      dsimp only
      rw [if_neg hs, hetat]
      simp
    · simp [hetat, statusMapGet]

/-- C10 witness: a record with a SIRET but no administrative status
anywhere is included with an empty displayed status. -/
theorem processEtab_active_filter_witness :
    (od ({ siret := some "00000000000001" } : Etab).siret ≠ "") ∧
    get_etat_admin ({ siret := some "00000000000001" } : Etab) = "" ∧
    (∃ row, processEtab true { siret := some "00000000000001" } = some row ∧
      row.etatAdministratif = "") := by
  refine ⟨by decide, by decide, ?_⟩
  exact (processEtab_active_filter { siret := some "00000000000001" }).2
    (by decide) (by decide)

/-- C5: when the stop flag is already set before the first page request,
the fetch aborts with the dedicated stop error, after zero requests and
with no rows. -/
theorem fetch_stop_before_first_page (raw : String) (onlyActive : Bool)
    (maxPages maxRetries : Nat) (stop : Nat → Bool) (resp : Nat → Response)
    (hraw : (digitsOf raw).length = 9) (hmp : 1 ≤ maxPages)
    (hstop : stop 0 = true) :
    get_sirets_from_siren raw onlyActive maxPages maxRetries stop resp
      = .err .stopRequested 0 [] := by
  obtain ⟨b, rfl⟩ : ∃ b, maxPages = b + 1 := ⟨maxPages - 1, by omega⟩
  simp only [get_sirets_from_siren, normalize_siren_ok raw hraw]
  rw [fetchLoop]
  simp [hstop]

/-- C5 witness: the theorem at a concrete valid identifier with the stop
flag raised from the start. -/
theorem fetch_stop_before_first_page_witness :
    get_sirets_from_siren "481 986 446" true 500 15 (fun _ => true)
      (fun _ => .ok [] none) = .err .stopRequested 0 [] :=
  fetch_stop_before_first_page "481 986 446" true 500 15 (fun _ => true)
    (fun _ => .ok [] none) (by decide) (by omega) rfl

theorem fetchLoop_not_validation (resp : Nat → Response) (stop : Nat → Bool)
    (onlyActive : Bool) (maxRetries : Nat) :
    ∀ (budget i : Nat) (cursor : String) (retry : Nat) (rows : List Row)
      (etabs : List Etab) (sleeps : List Nat),
      isValidationErr
        (fetchLoop resp stop onlyActive maxRetries budget i cursor retry rows
          etabs sleeps) = false
  | 0, _, _, _, _, _, _ => rfl
  | budget + 1, i, cursor, retry, rows, etabs, sleeps => by
    rw [fetchLoop]
    by_cases hstop : stop i = true
    · simp [hstop, isValidationErr]
    · simp only [hstop, if_false, Bool.false_eq_true]
      cases hr : resp i with
      | netFailure msg => simp [isValidationErr]
      | status429 =>
        by_cases hretry : retry + 1 > maxRetries
        · simp [hretry, isValidationErr]
        · simp only [hretry, if_false]
          exact fetchLoop_not_validation resp stop onlyActive maxRetries budget
            (i + 1) cursor (retry + 1) rows etabs (sleeps ++ [retry + 1])
      | httpStatus code =>
        by_cases h401 : code = 401
        · simp [h401, isValidationErr]
        · by_cases h400 : code = 400
          · simp [h401, h400, isValidationErr]
          · simp [h401, h400, isValidationErr]
      | ok pageEtabs nextCursor =>
        cases nextCursor with
        | none => simp [isValidationErr]
        | some nc =>
          by_cases hemp : nc = ""
          · simp [hemp, isValidationErr]
          · by_cases hsame : nc = cursor
            · simp [hemp, hsame, isValidationErr]
            · simp only [hemp, hsame, if_false]
              exact fetchLoop_not_validation resp stop onlyActive maxRetries
                budget (i + 1) nc 0
                (rows ++ pageEtabs.filterMap (processEtab onlyActive))
                (etabs ++ pageEtabs) sleeps

/-- C9: an identifier that does not contain exactly 9 digits after
stripping non-digits makes the fetch fail with the descriptive validation
error before any request is issued (request count 0); an identifier that
does is normalized to its 9 digits and the fetch never produces a
validation error afterwards. -/
theorem siren_validated_before_requests (raw : String) (onlyActive : Bool)
    (maxPages maxRetries : Nat) (stop : Nat → Bool) (resp : Nat → Response) :
    ((digitsOf raw).length ≠ 9 →
      get_sirets_from_siren raw onlyActive maxPages maxRetries stop resp
        = .err (.validation "Le SIREN doit contenir exactement 9 chiffres.") 0 []) ∧
    ((digitsOf raw).length = 9 →
      normalize_siren raw = .ok (digitsOf raw) ∧
      isValidationErr
        (get_sirets_from_siren raw onlyActive maxPages maxRetries stop resp)
        = false) := by
  constructor
  · intro h
    simp [get_sirets_from_siren, normalize_siren_fails raw h]
  · intro h
    refine ⟨normalize_siren_ok raw h, ?_⟩
    simp only [get_sirets_from_siren, normalize_siren_ok raw h]
    cases hres : fetchLoop resp stop onlyActive maxRetries maxPages 0 "*" 0 [] [] [] with
    | done rows etabs sleeps reqs => simp [isValidationErr]
    | err e reqs sleeps =>
      have hnv := fetchLoop_not_validation resp stop onlyActive maxRetries
        maxPages 0 "*" 0 [] [] []
      rw [hres] at hnv
      simpa [isValidationErr] using hnv

/-- C9 witness: a malformed identifier fails validation with zero
requests; a well-formed one is normalized to its digits. -/
theorem siren_validated_before_requests_witness :
    (get_sirets_from_siren "12 34" true 500 15 (fun _ => false)
      (fun _ => .ok [] none)
      = .err (.validation "Le SIREN doit contenir exactement 9 chiffres.") 0 []) ∧
    normalize_siren "481 986 446" = .ok "481986446" := by
  constructor
  · exact (siren_validated_before_requests "12 34" true 500 15 (fun _ => false)
      (fun _ => .ok [] none)).1 (by decide)
  · exact ((siren_validated_before_requests "481 986 446" true 500 15
      (fun _ => false) (fun _ => .ok [] none)).2 (by decide)).1

/-- C4: whenever a page response carries no next cursor or repeats the
current cursor, the page loop terminates normally on that iteration,
returning the rows accumulated so far — no safety-stop error and no
further iteration. -/
theorem cursor_stall_terminates (resp : Nat → Response) (stop : Nat → Bool)
    (onlyActive : Bool) (maxRetries budget i : Nat) (cursor : String)
    (retry : Nat) (rows : List Row) (etabs : List Etab) (sleeps : List Nat)
    (es : List Etab) (nc : Option String)
    (hstop : stop i = false) (hresp : resp i = .ok es nc)
    (hnc : nc = none ∨ nc = some cursor) :
    fetchLoop resp stop onlyActive maxRetries (budget + 1) i cursor retry rows
      etabs sleeps
      = .done (rows ++ es.filterMap (processEtab onlyActive)) (etabs ++ es)
          sleeps (i + 1) := by
  rw [fetchLoop]
  simp only [hstop, Bool.false_eq_true, if_false, hresp]
  rcases hnc with rfl | rfl
  · simp
  · by_cases hc : cursor = ""
    · simp [hc]
    · simp [hc]

/-- C4 witness: a first page answering with the same cursor (`"*"`) ends
the fetch loop at once with the accumulated (empty) rows. -/
theorem cursor_stall_terminates_witness :
    fetchLoop (fun _ => .ok [] (some "*")) (fun _ => false) true 15 1 0 "*" 0
      [] [] [] = .done [] [] [] 1 :=
  cursor_stall_terminates (fun _ => .ok [] (some "*")) (fun _ => false) true 15
    0 0 "*" 0 [] [] [] [] (some "*") rfl rfl (Or.inr rfl)

theorem fetchLoop_429_run (resp : Nat → Response) (stop : Nat → Bool)
    (onlyActive : Bool) (maxRetries : Nat) :
    ∀ (N budget i : Nat) (cursor : String) (retry : Nat) (rows : List Row)
      (etabs : List Etab) (sleeps : List Nat),
      (∀ j, j < N → resp (i + j) = .status429) →
      (∀ j, j < N → stop (i + j) = false) →
      retry + N ≤ maxRetries → N ≤ budget →
      fetchLoop resp stop onlyActive maxRetries budget i cursor retry rows
        etabs sleeps
        = fetchLoop resp stop onlyActive maxRetries (budget - N) (i + N) cursor
            (retry + N) rows etabs (sleeps ++ List.range' (retry + 1) N)
  | 0, budget, i, cursor, retry, rows, etabs, sleeps => by
    intro _ _ _ _
    simp
  | N + 1, budget, i, cursor, retry, rows, etabs, sleeps => by
    intro h429 hstop hret hbud
    obtain ⟨b, rfl⟩ : ∃ b, budget = b + 1 := ⟨budget - 1, by omega⟩
    rw [fetchLoop]
    have hstop0 : stop i = false := by simpa using hstop 0 (by omega)
    have h4290 : resp i = .status429 := by simpa using h429 0 (by omega)
    simp only [hstop0, Bool.false_eq_true, if_false, h4290]
    have hretry : ¬ (retry + 1 > maxRetries) := by omega
    simp only [hretry, if_false]
    have ih := fetchLoop_429_run resp stop onlyActive maxRetries N b (i + 1)
      cursor (retry + 1) rows etabs (sleeps ++ [retry + 1])
      (by
        intro j hj
        have h := h429 (j + 1) (by omega)
        have he : i + 1 + j = i + (j + 1) := by omega
        rw [he]
        exact h)
      (by
        intro j hj
        have h := hstop (j + 1) (by omega)
        have he : i + 1 + j = i + (j + 1) := by omega
        rw [he]
        exact h)
      (by omega) (by omega)
    have he1 : b + 1 - (N + 1) = b - N := by omega
    have he2 : i + (N + 1) = i + 1 + N := by omega
    have he3 : retry + (N + 1) = retry + 1 + N := by omega
    have he4 : sleeps ++ List.range' (retry + 1) (N + 1)
        = (sleeps ++ [retry + 1]) ++ List.range' (retry + 1 + 1) N := by
      rw [List.range'_succ, List.append_assoc]
      rfl
    rw [he1, he2, he3, he4]
    exact ih

/-- C3: (1) exactly N consecutive 429 responses within the retry bound,
followed by a success with no further page, yield N recorded back-off
sleeps of durations 1, 2, …, N seconds (the k-th proportional to k) and a
successful fetch after N+1 requests; (2) once the consecutive-429 count
exceeds the bound, the fetch fails with the rate-limit error; (3) any
non-429 error status is fatal on the spot, with no retry. -/
theorem retry429_backoff (raw : String) (onlyActive : Bool)
    (maxPages maxRetries N : Nat) (resp : Nat → Response) (es : List Etab) :
    ((digitsOf raw).length = 9 → (∀ j, j < N → resp j = .status429) →
      resp N = .ok es none → N ≤ maxRetries → N < maxPages →
      get_sirets_from_siren raw onlyActive maxPages maxRetries (fun _ => false)
        resp
        = .done (postProcess (es.filterMap (processEtab onlyActive))) es
            (List.range' 1 N) (N + 1)) ∧
    ((digitsOf raw).length = 9 → (∀ j, j ≤ maxRetries → resp j = .status429) →
      maxRetries < maxPages →
      get_sirets_from_siren raw onlyActive maxPages maxRetries (fun _ => false)
        resp
        = .err .tooMany429 (maxRetries + 1) (List.range' 1 maxRetries)) ∧
    (∀ (stop : Nat → Bool) (budget i : Nat) (cursor : String) (retry : Nat)
      (rows : List Row) (etabs : List Etab) (sleeps : List Nat) (code : Nat),
      stop i = false → resp i = .httpStatus code →
      fetchLoop resp stop onlyActive maxRetries (budget + 1) i cursor retry
        rows etabs sleeps
        = .err (if code = 401 then .unauthorized
                else if code = 400 then .badRequest
                else .httpError code) (i + 1) sleeps) := by
  refine ⟨?_, ?_, ?_⟩
  · intro h9 h429 hok hNr hNp
    simp only [get_sirets_from_siren, normalize_siren_ok raw h9]
    have hrun := fetchLoop_429_run resp (fun _ => false) onlyActive maxRetries
      N maxPages 0 "*" 0 [] [] []
      (by intro j hj; simpa using h429 j hj)
      (by intro j _; rfl) (by omega) (by omega)
    rw [hrun]
    obtain ⟨b, hb⟩ : ∃ b, maxPages - N = b + 1 := ⟨maxPages - N - 1, by omega⟩
    rw [hb, fetchLoop]
    simp only [Nat.zero_add, hok, Bool.false_eq_true, if_false]
    simp
  · intro h9 h429 hNp
    simp only [get_sirets_from_siren, normalize_siren_ok raw h9]
    have hrun := fetchLoop_429_run resp (fun _ => false) onlyActive maxRetries
      maxRetries maxPages 0 "*" 0 [] [] []
      (by intro j hj; simpa using h429 j (by omega))
      (by intro j _; rfl) (by omega) (by omega)
    rw [hrun]
    obtain ⟨b, hb⟩ : ∃ b, maxPages - maxRetries = b + 1 :=
      ⟨maxPages - maxRetries - 1, by omega⟩
    rw [hb, fetchLoop]
    have h429N : resp (0 + maxRetries) = .status429 := by
      simpa using h429 maxRetries (by omega)
    simp only [h429N, Bool.false_eq_true, if_false]
    have hgt : maxRetries + 1 > maxRetries := by omega
    simp [hgt]
  · intro stop budget i cursor retry rows etabs sleeps code hstop hresp
    rw [fetchLoop]
    simp only [hstop, Bool.false_eq_true, if_false, hresp]
    by_cases h401 : code = 401
    · simp [h401]
    · by_cases h400 : code = 400
      · simp [h401, h400]
      · simp [h401, h400]

/-- C3 witness: two 429 responses then a success, under default bounds,
give the back-off sleeps [1, 2] and a success after 3 requests. -/
theorem retry429_backoff_witness :
    get_sirets_from_siren "481 986 446" true 500 15 (fun _ => false)
      (fun i => if i < 2 then .status429 else .ok [] none)
      = .done [] [] [1, 2] 3 := by
  have h := (retry429_backoff "481 986 446" true 500 15 2
    (fun i => if i < 2 then .status429 else .ok [] none) []).1
    (by decide)
    (by
      intro j hj
      match j, hj with
      | 0, _ => rfl
      | 1, _ => rfl)
    rfl (by omega) (by omega)
  exact h

theorem lastWithSiret_siret (k : String) (rows : List Row) (r : Row)
    (h : lastWithSiret k rows = some r) : r.SIRET = k := by
  unfold lastWithSiret at h
  have := List.find?_some h
  simpa using this

theorem dictValues_pairwise (rows : List Row) :
    (dictValues rows).Pairwise (fun a b => a.SIRET ≠ b.SIRET) := by
  unfold dictValues
  rw [List.pairwise_filterMap]
  have hkeys := dedupByFirst_pairwise_keys (id : String → String) []
    (rows.map (·.SIRET))
  refine hkeys.imp_of_mem ?_
  intro k1 k2 _ _ hne r1 hr1 r2 hr2
  rw [lastWithSiret_siret k1 rows r1 hr1, lastWithSiret_siret k2 rows r2 hr2]
  exact hne

/-- C7 (amended): both final outputs contain at most one row per SIRET;
the batch output is non-decreasing in (SIREN, SIRET) lexicographically,
while the per-identifier output is non-decreasing in SIRET (the
per-identifier post-processing sorts by SIRET only). -/
theorem final_outputs_dedup_sorted :
    (∀ rows : List Row,
      ((postProcess rows).Pairwise fun a b => a.SIRET ≠ b.SIRET) ∧
      (postProcess rows).Sorted rowLeSiret) ∧
    (∀ allRows : List Row,
      ((batchPostProcess allRows).Pairwise fun a b => a.SIRET ≠ b.SIRET) ∧
      (batchPostProcess allRows).Sorted rowLeLex) := by
  constructor
  · intro rows
    constructor
    · have hperm := List.perm_insertionSort rowLeSiret (dictValues rows)
      exact (hperm.pairwise_iff fun h => h.symm).mpr (dictValues_pairwise rows)
    · exact List.sorted_insertionSort rowLeSiret _
  · intro allRows
    constructor
    · have hperm := List.perm_insertionSort rowLeLex
        (dedupByFirst (·.SIRET) [] allRows)
      exact (hperm.pairwise_iff fun h => h.symm).mpr
        (dedupByFirst_pairwise_keys _ [] allRows)
    · exact List.sorted_insertionSort rowLeLex _

/-- C7 counterexample: a reachable per-identifier final output that is NOT
non-decreasing in (parent, leaf): the per-fetch post-processing sorts by
SIRET only, so when a record's `siren` field does not prefix its `siret`
the (SIREN, SIRET) order is violated. -/
theorem per_fetch_output_not_lex_sorted :
    get_sirets_from_siren "123456789" true 500 15 (fun _ => false)
      (fun _ => .ok
        [{ siret := some "99999999999999", siren := some "000000000" },
         { siret := some "00000000000000", siren := some "999999999" }] none)
      = .done
          [⟨"00000000000000", "999999999", "", "", false, "", "", "", ""⟩,
           ⟨"99999999999999", "000000000", "", "", false, "", "", "", ""⟩]
          [{ siret := some "99999999999999", siren := some "000000000" },
           { siret := some "00000000000000", siren := some "999999999" }]
          [] 1 ∧
    ¬ ([⟨"00000000000000", "999999999", "", "", false, "", "", "", ""⟩,
        (⟨"99999999999999", "000000000", "", "", false, "", "", "", ""⟩ : Row)].Sorted
          rowLeLex) := by
  constructor
  · decide
  · decide

theorem beforeOk_cons (prev : Option Char) (c : Char) (l : List Char) :
    beforeOk prev (c :: l) = beforeOk (some c) l := by
  cases l with
  | nil => rfl
  | cons d l' =>
    unfold beforeOk
    rw [List.getLast?_cons_cons,
      List.getLast?_eq_getLast_of_ne_nil (show d :: l' ≠ [] by simp)]

theorem beforeOk_append (p : Option Char) (a b : List Char) (ha : a ≠ []) :
    beforeOk p (a ++ b) = beforeOk a.getLast? b := by
  cases b with
  | nil =>
    rw [List.append_nil]
    unfold beforeOk
    rw [List.getLast?_eq_getLast_of_ne_nil ha]
    rfl
  | cons d b' =>
    unfold beforeOk
    rw [List.getLast?_append_cons,
      List.getLast?_eq_getLast_of_ne_nil (show d :: b' ≠ [] by simp)]

theorem beforeOk_getLast (p : Option Char) (l : List Char) (h : l ≠ [])
    (hb : beforeOk p l = true) : isWordChar (l.getLast h) = false := by
  unfold beforeOk at hb
  rw [List.getLast?_eq_getLast_of_ne_nil h] at hb
  simpa using hb

theorem isWordChar_of_isDigit (c : Char) (h : c.isDigit = true) :
    isWordChar c = true := by
  simp [isWordChar, Char.isAlphanum, h]

theorem findRuns_complete :
    ∀ (fuel : Nat) (prev : Option Char) (l m r : List Char),
      (l ++ (m ++ r)).length ≤ fuel → m.length = 9 →
      (∀ c ∈ m, c.isDigit = true) → beforeOk prev l = true →
      boundaryAfter r = true →
      String.mk m ∈ findRuns fuel prev (l ++ (m ++ r))
  | 0, prev, l, m, r => by
    intro hlen hm _ _ _
    exfalso
    simp only [List.length_append] at hlen
    omega
  | fuel + 1, prev, l, m, r => by
    intro hlen hm hdig hb ha
    cases l with
    | nil =>
      cases m with
      | nil => simp at hm
      | cons c m' =>
        have hm' : m'.length = 8 := by simpa using hm
        have htake : (m' ++ r).take 8 = m' := by
          rw [List.take_append_of_le_length (by omega)]
          exact List.take_of_length_le (by omega)
        have hdrop : (m' ++ r).drop 8 = r := by
          rw [List.drop_append_of_le_length (by omega)]
          have : m'.drop 8 = [] := by
            rw [List.drop_eq_nil_iff]
            omega
          rw [this, List.nil_append]
        simp only [List.nil_append, List.cons_append]
        simp only [findRuns, htake, hdrop]
        have hc : ((c :: m').length = 9 && (c :: m').all Char.isDigit &&
            prevOk prev && boundaryAfter r) = true := by
          simp only [Bool.and_eq_true, decide_eq_true_eq]
          refine ⟨⟨⟨hm, List.all_eq_true.mpr hdig⟩, ?_⟩, ha⟩
          exact hb
        rw [if_pos hc]
        exact List.mem_cons_self _ _
    | cons c l' =>
      simp only [List.cons_append]
      by_cases hcond : (((c :: (l' ++ (m ++ r)).take 8).length = 9 &&
          (c :: (l' ++ (m ++ r)).take 8).all Char.isDigit && prevOk prev &&
          boundaryAfter ((l' ++ (m ++ r)).drop 8)) = true)
      · simp only [findRuns]
        rw [if_pos hcond]
        simp only [Bool.and_eq_true, decide_eq_true_eq] at hcond
        obtain ⟨⟨⟨hlen9, hall⟩, hprev⟩, hafter⟩ := hcond
        have hlnonempty : (c :: l') ≠ [] := by simp
        have hlast := beforeOk_getLast prev (c :: l') hlnonempty hb
        have hl9 : 9 ≤ l'.length := by
          by_contra hlt
          push_neg at hlt
          have hmem : (c :: l').getLast hlnonempty ∈
              c :: (l' ++ (m ++ r)).take 8 := by
            cases l' with
            | nil => simp
            | cons d l'' =>
              apply List.mem_cons_of_mem
              rw [List.take_append_eq_append_take]
              apply List.mem_append_left
              rw [List.take_of_length_le (by simp at hlt ⊢; omega)]
              have hgl : (c :: d :: l'').getLast (by simp)
                  = (d :: l'').getLast (by simp) := by
                have h1 : (c :: d :: l'').getLast? = (d :: l'').getLast? :=
                  List.getLast?_cons_cons
                rw [List.getLast?_eq_getLast_of_ne_nil (by simp),
                  List.getLast?_eq_getLast_of_ne_nil (by simp)] at h1
                exact Option.some_inj.mp h1
              rw [hgl]
              exact List.getLast_mem _
          have hdigit := List.all_eq_true.mp hall _ hmem
          have hword := isWordChar_of_isDigit _ hdigit
          rw [hlast] at hword
          exact Bool.false_ne_true hword
        have htake : (l' ++ (m ++ r)).take 8 = l'.take 8 :=
          List.take_append_of_le_length (by omega)
        have hdrop : (l' ++ (m ++ r)).drop 8 = l'.drop 8 ++ (m ++ r) :=
          List.drop_append_of_le_length (by omega)
        apply List.mem_cons_of_mem
        rw [hdrop]
        have hne : l'.drop 8 ≠ [] := by
          intro hnil
          rw [List.drop_eq_nil_iff] at hnil
          omega
        apply findRuns_complete fuel _ (l'.drop 8) m r
        · simp only [List.length_append, List.length_cons, List.length_drop] at hlen ⊢
          omega
        · exact hm
        · exact hdig
        · unfold beforeOk
          rw [List.getLast?_eq_getLast_of_ne_nil hne]
          have hl'ne : l' ≠ [] := by
            intro h
            rw [h] at hl9
            simp at hl9
          have h1 : (c :: l').getLast? = (l'.drop 8).getLast? := by
            rw [show c :: l' = [c] ++ l' from rfl,
              List.getLast?_append_of_ne_nil _ hl'ne]
            conv_lhs => rw [← List.take_append_drop 8 l']
            rw [List.getLast?_append_of_ne_nil _ hne]
          rw [List.getLast?_eq_getLast_of_ne_nil hlnonempty,
            List.getLast?_eq_getLast_of_ne_nil hne] at h1
          have hgl := Option.some_inj.mp h1
          show (!isWordChar ((l'.drop 8).getLast hne)) = true
          rw [← hgl, hlast]
          rfl
        · exact ha
      · simp only [findRuns]
        rw [if_neg hcond]
        apply findRuns_complete fuel (some c) l' m r
        · simp only [List.length_append, List.length_cons] at hlen ⊢
          omega
        · exact hm
        · exact hdig
        · rw [← beforeOk_cons]
          exact hb
        · exact ha

theorem findRuns_sound :
    ∀ (fuel : Nat) (prev : Option Char) (cs : List Char),
      ∀ s ∈ findRuns fuel prev cs, ∃ l m r,
        cs = l ++ (m ++ r) ∧ m.length = 9 ∧ (∀ c ∈ m, c.isDigit = true) ∧
        beforeOk prev l = true ∧ boundaryAfter r = true ∧ s = String.mk m
  | fuel, prev, [] => by simp [findRuns]
  | 0, prev, c :: rest => by simp [findRuns]
  | fuel + 1, prev, c :: rest => by
    intro s hs
    simp only [findRuns] at hs
    by_cases hcond : (((c :: rest.take 8).length = 9 &&
        (c :: rest.take 8).all Char.isDigit && prevOk prev &&
        boundaryAfter (rest.drop 8)) = true)
    · rw [if_pos hcond] at hs
      have hcond' := hcond
      simp only [Bool.and_eq_true, decide_eq_true_eq] at hcond'
      obtain ⟨⟨⟨hlen9, hall⟩, hprev⟩, hafter⟩ := hcond'
      rcases List.mem_cons.mp hs with rfl | hs'
      · refine ⟨[], c :: rest.take 8, rest.drop 8, ?_, hlen9,
          List.all_eq_true.mp hall, ?_, hafter, rfl⟩
        · simp [List.take_append_drop]
        · exact hprev
      · have IH := findRuns_sound fuel (c :: rest.take 8).getLast?
          (rest.drop 8) s hs'
        rcases IH with ⟨l1, m, r, hsplit, hm, hdigm, hb1, ha1, rfl⟩
        refine ⟨(c :: rest.take 8) ++ l1, m, r, ?_, hm, hdigm, ?_, ha1, rfl⟩
        · rw [List.append_assoc, ← hsplit]
          simp [List.take_append_drop]
        · rw [beforeOk_append _ _ _ (by simp)]
          exact hb1
    · rw [if_neg hcond] at hs
      have IH := findRuns_sound fuel (some c) rest s hs
      rcases IH with ⟨l1, m, r, hsplit, hm, hdigm, hb1, ha1, rfl⟩
      refine ⟨c :: l1, m, r, ?_, hm, hdigm, ?_, ha1, rfl⟩
      · rw [List.cons_append, ← hsplit]
      · rw [beforeOk_cons]
        exact hb1

theorem mem_dedupByFirst_id {α : Type} [DecidableEq α] (seen : List α)
    (xs : List α) (a : α) :
    a ∈ dedupByFirst id seen xs ↔ (a ∈ xs ∧ a ∉ seen) := by
  constructor
  · intro h
    have := mem_of_mem_dedupByFirst id seen xs a h
    simpa using this
  · rintro ⟨hx, hs⟩
    rcases dedupByFirst_covers id seen xs a hx (by simpa using hs) with
      ⟨b, hb, hba⟩
    simp only [id_eq] at hba
    rw [← hba]
    exact hb

/-- C2 (amended): after stripping spaces and tabs, the extractor emits
exactly the runs of 9 digits bounded on each side by a NON-WORD character
(the `\b` word boundary: letters, digits and the underscore block a
match, not merely digits) or by the text boundary; a run of 10 or more
digits therefore yields no 9-digit match, and extract("1234567890") = []. -/
theorem extract_bounded_runs (text : String) :
    (∀ l m r, compactChars text = l ++ (m ++ r) → m.length = 9 →
      (∀ c ∈ m, c.isDigit = true) → beforeOk none l = true →
      boundaryAfter r = true →
      String.mk m ∈ extract_sirens_from_text text) ∧
    (∀ s ∈ extract_sirens_from_text text, ∃ l m r,
      compactChars text = l ++ (m ++ r) ∧ m.length = 9 ∧
      (∀ c ∈ m, c.isDigit = true) ∧ beforeOk none l = true ∧
      boundaryAfter r = true ∧ s = String.mk m) ∧
    extract_sirens_from_text "1234567890" = [] := by
  refine ⟨?_, ?_, by rfl⟩
  · intro l m r hsplit hm hdig hb ha
    by_cases htext : text = ""
    · exfalso
      subst htext
      have hlen := congrArg List.length hsplit
      simp [List.length_append, compactChars] at hlen
      omega
    · unfold extract_sirens_from_text
      rw [if_neg htext, mem_dedupByFirst_id]
      refine ⟨?_, by simp⟩
      rw [hsplit]
      exact findRuns_complete _ none l m r (by rw [← hsplit]) hm hdig hb ha
  · intro s hs
    by_cases htext : text = ""
    · subst htext
      simp [extract_sirens_from_text] at hs
    · unfold extract_sirens_from_text at hs
      rw [if_neg htext, mem_dedupByFirst_id] at hs
      exact findRuns_sound _ none (compactChars text) s hs.1

/-- C2 counterexample: `'a'` is a non-digit, yet `"a123456789"` yields no
match — the scanner requires a non-word boundary and a letter is a word
character; a non-word, non-digit neighbour such as `'-'` does allow the
match. -/
theorem extract_word_boundary_not_digit_boundary :
    extract_sirens_from_text "a123456789" = [] ∧
    extract_sirens_from_text "-123456789" = ["123456789"] :=
  ⟨rfl, rfl⟩

/-- C2 witness: the amended theorem applied to the concrete text
`"-123456789"` with its bounded 9-digit run. -/
theorem extract_bounded_runs_witness :
    String.mk ['1', '2', '3', '4', '5', '6', '7', '8', '9']
      ∈ extract_sirens_from_text "-123456789" :=
  (extract_bounded_runs "-123456789").1 ['-']
    ['1', '2', '3', '4', '5', '6', '7', '8', '9'] [] (by decide) (by decide)
    (by decide) (by decide) (by decide)

theorem dedupByFirst_id_nodup {α : Type} [DecidableEq α] (seen xs : List α) :
    (dedupByFirst id seen xs).Nodup := by
  have h := dedupByFirst_pairwise_keys (id : α → α) seen xs
  exact h.imp (fun hab => by simpa using hab)

theorem dedupByFirst_id_firstIdx {α : Type} [DecidableEq α] :
    ∀ (seen : List α) (xs : List α),
      (dedupByFirst id seen xs).Pairwise
        (fun a b => xs.indexOf a < xs.indexOf b)
  | _, [] => by simp [dedupByFirst]
  | seen, x :: rest => by
    simp only [dedupByFirst, id_eq]
    split_ifs with hx
    · have ih := dedupByFirst_id_firstIdx seen rest
      refine ih.imp_of_mem ?_
      intro a b ha hb hlt
      have hma := mem_of_mem_dedupByFirst id seen rest a ha
      have hmb := mem_of_mem_dedupByFirst id seen rest b hb
      simp only [id_eq] at hma hmb
      have hax : x ≠ a := fun he => hma.2 (by rw [← he]; exact hx)
      have hbx : x ≠ b := fun he => hmb.2 (by rw [← he]; exact hx)
      rw [List.indexOf_cons_ne _ hax, List.indexOf_cons_ne _ hbx]
      omega
    · refine List.Pairwise.cons ?_ ?_
      · intro b hb
        have hmb := mem_of_mem_dedupByFirst id (x :: seen) rest b hb
        simp only [id_eq] at hmb
        have hbx : x ≠ b := fun he =>
          hmb.2 (by rw [← he]; exact List.mem_cons_self _ _)
        rw [List.indexOf_cons_self, List.indexOf_cons_ne _ hbx]
        omega
      · have ih := dedupByFirst_id_firstIdx (x :: seen) rest
        refine ih.imp_of_mem ?_
        intro a b ha hb hlt
        have hma := mem_of_mem_dedupByFirst id (x :: seen) rest a ha
        have hmb := mem_of_mem_dedupByFirst id (x :: seen) rest b hb
        simp only [id_eq] at hma hmb
        have hax : x ≠ a := fun he =>
          hma.2 (by rw [← he]; exact List.mem_cons_self _ _)
        have hbx : x ≠ b := fun he =>
          hmb.2 (by rw [← he]; exact List.mem_cons_self _ _)
        rw [List.indexOf_cons_ne _ hax, List.indexOf_cons_ne _ hbx]
        omega

/-- C6: every extracted string is exactly 9 (ASCII) digits; the output has
no duplicates and lists matches in order of first occurrence in the raw
scan (strictly increasing first-occurrence indices); on the claim's
example the output is exactly ["481986446", "552100554"]. -/
theorem extract_nodup_first_seen (text : String) :
    (∀ s ∈ extract_sirens_from_text text,
      s.length = 9 ∧ ∀ c ∈ s.data, c.isDigit = true) ∧
    (extract_sirens_from_text text).Nodup ∧
    (extract_sirens_from_text text).Pairwise (fun a b =>
      (findRuns (compactChars text).length none (compactChars text)).indexOf a
        < (findRuns (compactChars text).length none
            (compactChars text)).indexOf b) ∧
    extract_sirens_from_text "481 986 446\n552100554\n481986446"
      = ["481986446", "552100554"] := by
  refine ⟨?_, ?_, ?_, by rfl⟩
  · intro s hs
    by_cases htext : text = ""
    · subst htext
      simp [extract_sirens_from_text] at hs
    · unfold extract_sirens_from_text at hs
      rw [if_neg htext, mem_dedupByFirst_id] at hs
      rcases findRuns_sound _ none (compactChars text) s hs.1 with
        ⟨l, m, r, _, hm, hdig, _, _, rfl⟩
      exact ⟨hm, hdig⟩
  · by_cases htext : text = ""
    · simp [extract_sirens_from_text, htext]
    · unfold extract_sirens_from_text
      rw [if_neg htext]
      exact dedupByFirst_id_nodup [] _
  · by_cases htext : text = ""
    · simp [extract_sirens_from_text, htext]
    · unfold extract_sirens_from_text
      rw [if_neg htext]
      exact dedupByFirst_id_firstIdx [] _

/-- C6 witness: the theorem applied to the claim's example text and its
first extracted string. -/
theorem extract_nodup_first_seen_witness :
    ("481986446" ∈ extract_sirens_from_text
      "481 986 446\n552100554\n481986446") ∧
    ("481986446" : String).length = 9 :=
  ⟨by decide,
   ((extract_nodup_first_seen "481 986 446\n552100554\n481986446").1
     "481986446" (by decide)).1⟩
